import Mathlib

/-!
Verification of the MDN HTTP Observatory scanFullDetails / scanBatchFullDetails
API layer (secinto/mdn-http-observatory).

The endpoint handlers `scanOrReturnRecentWithFullDetails`
(src/api/v2/scan/full-details.js), `scanWithFullDetails`, `scanSingleUrl`,
`runWithConcurrency` and the batch handler (batch-full-details endpoint file)
are shallowly embedded below.  JavaScript strings are modelled as Lean
strings, objects as structures or association lists, and the asynchronous,
stateful parts (database pool, scanner invocations) as explicit state passing
over a `St` record with instrumentation counters.  Collaborators that are not
part of the sources (the repository query, the scanner, Site parsing) are
modelled from the specification and marked as such in their doc comments.
-/

set_option maxHeartbeats 1000000

namespace Observatory

/-- Whitespace characters removed by the JavaScript trim() used by the
endpoints, identified by code point: space, tab, LF, VT, FF, CR. -/
def jsWhitespace (c : Char) : Bool :=
  c.toNat == 32 || c.toNat == 9 || c.toNat == 10 || c.toNat == 11 ||
    c.toNat == 12 || c.toNat == 13

/-- ASCII lower-casing of one character, as performed by the JavaScript
toLowerCase() call of the endpoints on host strings. -/
def jsToLower (c : Char) : Char :=
  if 65 ≤ c.toNat ∧ c.toNat ≤ 90 then Char.ofNat (c.toNat + 32) else c

/-- Trimming of leading and trailing whitespace on a character list,
the list-level model of JavaScript trim(). -/
def jsTrimList (l : List Char) : List Char :=
  ((l.dropWhile jsWhitespace).reverse.dropWhile jsWhitespace).reverse

/-- The endpoint-level normalization applied to every incoming host string
and to every batch url: trim() followed by toLowerCase()
(full-details.js line 64, batch file lines 115 and 203/212). -/
def jsNormalize (s : String) : String :=
  String.mk ((jsTrimList s.toList).map jsToLower)

/-- A list is trimmed when neither its first nor its last element is whitespace
under the predicate. -/
def TrimmedAt (p : Char → Bool) (l : List Char) : Prop :=
  (∀ a, l.head? = some a → p a = false) ∧ (∀ a, l.getLast? = some a → p a = false)

/-- Character codes of the literal http scheme seperator, as a list. -/
def schemeHttp : List Char := ['h', 't', 't', 'p', ':', '/', '/']

/-- Character codes of the literal https scheme separator, as a list. -/
def schemeHttps : List Char := ['h', 't', 't', 'p', 's', ':', '/', '/']

/-- The characters of the string localhost. -/
def localhostChars : List Char :=
  ['l', 'o', 'c', 'a', 'l', 'h', 'o', 's', 't']

/-- Modelled from the spec: the canonicalizer strips any scheme
(http or https followed by colon-slash-slash). -/
def stripScheme (l : List Char) : List Char :=
  if schemeHttp.isPrefixOf l then l.drop 7
  else if schemeHttps.isPrefixOf l then l.drop 8
  else l

/-- An ASCII decimal digit, identified by code point. -/
def isDigitChar (c : Char) : Bool := 48 ≤ c.toNat && c.toNat ≤ 57

/-- Numeric value of a list of decimal digit characters. -/
def digitsVal (l : List Char) : Nat :=
  l.foldl (fun a c => a * 10 + (c.toNat - 48)) 0

/-- Modelled from the spec: split an authority into host and optional port,
rejecting ports that are not all digits or lie outside 1..65535. -/
def splitPort (auth : List Char) : Option (List Char × Option (List Char)) :=
  if auth.any (fun c => c.toNat == 58) then
    let h := auth.takeWhile (fun c => c.toNat != 58)
    match auth.dropWhile (fun c => c.toNat != 58) with
    | [] => none
    | _ :: ps =>
      if ps ≠ [] ∧ ps.all isDigitChar = true ∧ 1 ≤ digitsVal ps ∧ digitsVal ps ≤ 65535 then
        some (h, some ps)
      else none
  else some (auth, none)

/-- A character allowed inside a hostname label: lower-case letter, digit or
hyphen (code points 97..122, 48..57, 45). -/
def labelChar (c : Char) : Bool :=
  (97 ≤ c.toNat && c.toNat ≤ 122) || (48 ≤ c.toNat && c.toNat ≤ 57) || c.toNat == 45

/-- A character allowed inside a canonical host: a label character or a dot. -/
def hostChar (c : Char) : Bool := labelChar c || c.toNat == 46

/-- Split a character list at dots into labels. -/
def splitDot : List Char → List (List Char)
  | [] => [[]]
  | c :: t =>
    if c.toNat = 46 then [] :: splitDot t
    else
      match splitDot t with
      | [] => [[c]]
      | g :: gs => (c :: g) :: gs

/-- A valid RFC-1035 label: nonempty, letters/digits/hyphens, and not starting
or ending with a hyphen. -/
def labelOk (lab : List Char) : Bool :=
  !lab.isEmpty && lab.all labelChar &&
    !(lab.head?.any (fun c => c.toNat == 45)) && !(lab.getLast?.any (fun c => c.toNat == 45))

/-- Modelled from the spec: the hostname grammar of Site.fromSiteString -
dot-separated labels of letters, digits and hyphens, none starting or ending
with a hyphen, containing at least one dot or equal to localhost. -/
def validHost (host : List Char) : Bool :=
  !host.isEmpty && host.all hostChar && (splitDot host).all labelOk &&
    (host.any (fun c => c.toNat == 46) || host == localhostChars)

/-- Modelled from the spec: a bare IP literal (every label all digits)
is rejected by the canonicalizer. -/
def isIpLiteral (host : List Char) : Bool :=
  (splitDot host).all (fun lab => !lab.isEmpty && lab.all isDigitChar)

/-- Modelled from the spec: Site.fromSiteString and checkSitename are not under
src/; per spec 4.1 the canonicalizer strips any scheme, strips query and
fragment, lower-cases the host, preserves a non-empty path verbatim, parses an
optional port in 1..65535, and rejects empty inputs, inputs containing
whitespace, hosts failing the hostname grammar, and bare IP literals.  The DNS
resolution check is outside a shallow embedding and is not modelled. -/
def canonicalize (s : String) : Option String :=
  if s.toList.isEmpty then none
  else if s.toList.any jsWhitespace then none
  else
    match splitPort (((stripScheme s.toList).takeWhile
        (fun c => c.toNat != 63 && c.toNat != 35)).takeWhile (fun c => c.toNat != 47)) with
    | none => none
    | some (rawHost, portPart) =>
      if validHost (rawHost.map jsToLower) = true ∧ isIpLiteral (rawHost.map jsToLower) = false then
        match portPart with
        | none =>
          some (String.mk (rawHost.map jsToLower ++
            ((stripScheme s.toList).takeWhile
              (fun c => c.toNat != 63 && c.toNat != 35)).dropWhile (fun c => c.toNat != 47)))
        | some ps =>
          some (String.mk (rawHost.map jsToLower ++ ':' :: (ps ++
            ((stripScheme s.toList).takeWhile
              (fun c => c.toNat != 63 && c.toNat != 35)).dropWhile (fun c => c.toNat != 47))))
      else none

/-- A persisted scan summary row, as described by the spec for the scans table:
id, algorithm_version, start_time (modelled as a numeric instant), error,
grade, score, status_code and the three test counters. -/
structure ScanRow where
  id : Nat
  algorithm_version : Nat
  start_time : Nat
  error : Option String
  grade : Option String
  score : Option Int
  status_code : Option Int
  tests_failed : Nat
  tests_passed : Nat
  tests_quantity : Nat
deriving Repr, DecidableEq

/-- The result object of the in-memory scanner: the scan summary object and the
tests map.  Field values are opaque strings; each test is an association list
of field name to value so that removal of single fields can be stated. -/
structure FullScanResult where
  scanBody : List (String × String)
  tests : List (String × List (String × String))
deriving Repr, DecidableEq

/-- A JavaScript error value as observed by the catch block of scanSingleUrl:
its name, its constructor name and its message (empty strings model absent,
falsy fields). -/
structure JsError where
  name : String
  ctorName : String
  message : String
deriving Repr, DecidableEq

/-- The environment of a request: configuration (cooldown, baseUrl) and the
deterministic oracles standing for the collaborators that are not part of the
sources.  scanOf is the in-memory scanner result for a site key, rowOf the
summary row the persisting scan produces for a site key at an instant, and
siteCheck the outcome of Site.fromSiteString plus checkSitename (DNS), which
either throws a JsError or yields the site key. -/
structure Env where
  cooldown : Nat
  baseUrl : Option String
  scanOf : String → FullScanResult
  rowOf : String → Nat → ScanRow
  siteCheck : String → Except JsError String

/-- The explicit state threaded through a request: the persisted rows (most
recent first), the current instant, and instrumentation counters - scans
counts runs of the probing scanner (network retrievals), persists counts
executeScan calls (scan-and-persist), singles counts scanSingleUrl calls. -/
structure St where
  db : List (String × ScanRow)
  now : Nat
  scans : Nat
  persists : Nat
  singles : Nat
deriving Repr, DecidableEq

/-- Modelled from the spec: selectScanLatestScanByHost of database/repository.js
is not under src/; per the spec it returns the latest persisted scan row for
the site key if that row is younger than the given age, else nothing. -/
def selectScanLatestScanBySite (db : List (String × ScanRow)) (now : Nat)
    (siteKey : String) (age : Nat) : Option ScanRow :=
  (db.find? (fun e => e.1 == siteKey && decide (now < e.2.start_time + age))).map Prod.snd

/-- Modelled from the spec: executeScan of api/v2/utils.js is not under src/;
it runs the scanner against the site (one network retrieval), persists the
summary row and returns it. -/
def executeScan (env : Env) (st : St) (siteKey : String) : ScanRow × St :=
  let row := { env.rowOf siteKey st.now with start_time := st.now }
  (row, { st with
      db := (siteKey, row) :: st.db
      scans := st.scans + 1
      persists := st.persists + 1 })

/-- Modelled from the spec: scan of scanner/index.js is not under src/; it runs
the probes against the site and returns the full in-memory result, persisting
nothing. -/
def scan (env : Env) (st : St) (siteKey : String) : FullScanResult × St :=
  (env.scanOf siteKey, { st with scans := st.scans + 1 })

/-- One hexadecimal digit character (upper case for 10..15), by code point. -/
def hexDigitChar (n : Nat) : Char :=
  if n < 10 then Char.ofNat (48 + n) else Char.ofNat (55 + n)

/-- The UTF-8 bytes of one character, from its code point. -/
def utf8Bytes (c : Char) : List Nat :=
  let n := c.toNat
  if n < 128 then [n]
  else if n < 2048 then [192 + n / 64, 128 + n % 64]
  else if n < 65536 then [224 + n / 4096, 128 + (n / 64) % 64, 128 + n % 64]
  else [240 + n / 262144, 128 + (n / 4096) % 64, 128 + (n / 64) % 64, 128 + n % 64]

/-- A character left unescaped by encodeURIComponent: ASCII letters, digits,
and the marks minus, underscore, dot, exclamation, tilde, asterisk,
apostrophe and parentheses, identified by code point. -/
def uriUnescaped (c : Char) : Bool :=
  (65 ≤ c.toNat && c.toNat ≤ 90) || (97 ≤ c.toNat && c.toNat ≤ 122) ||
    (48 ≤ c.toNat && c.toNat ≤ 57) || c.toNat == 45 || c.toNat == 95 ||
    c.toNat == 46 || c.toNat == 33 || c.toNat == 126 || c.toNat == 42 ||
    c.toNat == 39 || c.toNat == 40 || c.toNat == 41

/-- The ECMAScript encodeURIComponent applied to the site key when building
the details url. -/
def encodeURIComponent (s : String) : String :=
  String.mk ((s.toList.map (fun c =>
    if uriUnescaped c then [c]
    else ((utf8Bytes c).map (fun b =>
      [Char.ofNat 37, hexDigitChar (b / 16), hexDigitChar (b % 16)])).flatten)).flatten)

/-- The fullDetails object of a response: the scan object and the tests map of
the fresh in-memory scan. -/
structure FullDetails where
  scan : List (String × String)
  tests : List (String × List (String × String))
deriving Repr, DecidableEq

/-- The response object built by scanOrReturnRecentWithFullDetails
(full-details.js lines 112-128) and, up to the extra success flag, by
scanWithFullDetails of the batch endpoint file (lines 165-183). -/
structure ScanResponse where
  id : Nat
  details_url : String
  algorithm_version : Nat
  scanned_at : Nat
  error : Option String
  grade : Option String
  score : Option Int
  status_code : Option Int
  tests_failed : Nat
  tests_passed : Nat
  tests_quantity : Nat
  fullDetails : FullDetails
deriving Repr, DecidableEq

/-- Removal of the scoreDescription field from every test, the translation of
the Object.fromEntries / destructuring loop of full-details.js lines 104-109
and of the batch endpoint file lines 158-163. -/
def stripScoreDescriptions (tests : List (String × List (String × String))) :
    List (String × List (String × String)) :=
  tests.map (fun kt => (kt.1, kt.2.filter (fun f => f.1 != "scoreDescription")))

/-- The summary fields of a response, collected back into a row; used to state
which persisted row a response reports. -/
def responseSummaryRow (r : ScanResponse) : ScanRow :=
  { id := r.id, algorithm_version := r.algorithm_version, start_time := r.scanned_at,
    error := r.error, grade := r.grade, score := r.score, status_code := r.status_code,
    tests_failed := r.tests_failed, tests_passed := r.tests_passed,
    tests_quantity := r.tests_quantity }

/-- Translation of scanOrReturnRecentWithFullDetails (full-details.js lines
83-131): look up the latest young row, otherwise execute and persist a scan;
always run a fresh in-memory scan; build the details url from the configured
base url or the MDN default; strip scoreDescription from the tests; assemble
the response. -/
def scanOrReturnRecentWithFullDetails (env : Env) (st : St) (site : String) :
    ScanResponse × St :=
  let step1 :=
    match selectScanLatestScanBySite st.db st.now site env.cooldown with
    | some row => (row, st)
    | none => executeScan env st site
  let scanRow := step1.1
  let st1 := step1.2
  let step2 := scan env st1 site
  let fullScanResult := step2.1
  let st2 := step2.2
  let detailsUrl :=
    match env.baseUrl with
    | some b => b ++ "/analyze?host=" ++ encodeURIComponent site
    | none => "https://developer.mozilla.org/en-US/observatory/analyze?host=" ++
        encodeURIComponent site
  ({ id := scanRow.id, details_url := detailsUrl,
     algorithm_version := scanRow.algorithm_version, scanned_at := scanRow.start_time,
     error := scanRow.error, grade := scanRow.grade, score := scanRow.score,
     status_code := scanRow.status_code, tests_failed := scanRow.tests_failed,
     tests_passed := scanRow.tests_passed, tests_quantity := scanRow.tests_quantity,
     fullDetails := { scan := fullScanResult.scanBody,
                      tests := stripScoreDescriptions fullScanResult.tests } }, st2)

/-- Translation of scanWithFullDetails (batch endpoint file lines 138-183); its
body is the same cooldown-lookup, fresh-scan and response assembly as
scanOrReturnRecentWithFullDetails; the extra success true flag of its return
object is modelled at the BatchEntry level. -/
def scanWithFullDetails (env : Env) (st : St) (site : String) : ScanResponse × St :=
  let step1 :=
    match selectScanLatestScanBySite st.db st.now site env.cooldown with
    | some row => (row, st)
    | none => executeScan env st site
  let scanRow := step1.1
  let st1 := step1.2
  let step2 := scan env st1 site
  let fullScanResult := step2.1
  let st2 := step2.2
  let detailsUrl :=
    match env.baseUrl with
    | some b => b ++ "/analyze?host=" ++ encodeURIComponent site
    | none => "https://developer.mozilla.org/en-US/observatory/analyze?host=" ++
        encodeURIComponent site
  ({ id := scanRow.id, details_url := detailsUrl,
     algorithm_version := scanRow.algorithm_version, scanned_at := scanRow.start_time,
     error := scanRow.error, grade := scanRow.grade, score := scanRow.score,
     status_code := scanRow.status_code, tests_failed := scanRow.tests_failed,
     tests_passed := scanRow.tests_passed, tests_quantity := scanRow.tests_quantity,
     fullDetails := { scan := fullScanResult.scanBody,
                      tests := stripScoreDescriptions fullScanResult.tests } }, st2)

/-- The error object returned for a failed batch entry
(batch endpoint file lines 122-127): success false together with the error
name, the error constructor name and the message. -/
structure BatchFailure where
  error : String
  errorType : String
  message : String
deriving Repr, DecidableEq

/-- One value of the batch response map: either the success response of
scanWithFullDetails (carrying success true) or the failure object. -/
inductive BatchEntry where
  | ok (r : ScanResponse)
  | fail (f : BatchFailure)
deriving Repr, DecidableEq

/-- The success flag of a batch response value: true on the spread success
object, false on the catch object. -/
def BatchEntry.successFlag : BatchEntry → Bool
  | .ok _ => true
  | .fail _ => false

/-- JavaScript logical-or on strings as used for the error fields: the first
operand unless it is falsy (empty). -/
def jsOr (a b : String) : String := if a = "" then b else a

/-- Translation of scanSingleUrl (batch endpoint file lines 113-129):
normalize the url, run Site.fromSiteString and checkSitename (the siteCheck
oracle), then scanWithFullDetails; any thrown error is caught and turned into
the failure object.  The singles counter records the invocation. -/
def scanSingleUrl (env : Env) (st : St) (url : String) : BatchEntry × St :=
  let st0 := { st with singles := st.singles + 1 }
  match env.siteCheck (jsNormalize url) with
  | .error e =>
    (.fail { error := jsOr e.name "error-unknown"
             errorType := jsOr e.ctorName "Error"
             message := jsOr e.message "Unknown error occurred" }, st0)
  | .ok site =>
    let step := scanWithFullDetails env st0 site
    (.ok step.1, step.2)

/-- The dedup filter of the batch handler (batch endpoint file lines 201-209):
keep a url when its normalized form has not been seen yet. -/
def dedupAux : List String → List String → List String
  | [], _ => []
  | u :: us, seen =>
    if jsNormalize u ∈ seen then dedupAux us seen
    else u :: dedupAux us (jsNormalize u :: seen)

/-- The distinct canonical (normalized) forms of a url list, in first
occurrence order, skipping an initial seen set. -/
def distinctForms : List String → List String → List String
  | [], _ => []
  | u :: us, seen =>
    if jsNormalize u ∈ seen then distinctForms us seen
    else jsNormalize u :: distinctForms us (jsNormalize u :: seen)

/-- Sequential model of the result collection of runWithConcurrency
(batch endpoint file lines 85-105): every item is passed to the scan function
and its result stored under the item itself as key. -/
def runBatchAux (env : Env) : List String → St → List (String × BatchEntry) × St
  | [], st => ([], st)
  | u :: us, st =>
    let step := scanSingleUrl env st u
    let rest := runBatchAux env us step.2
    ((u, step.1) :: rest.1, rest.2)

/-- Translation of the scanBatchFullDetails handler body (batch endpoint file
lines 196-220): dedup the urls by normalized form, map them to their
normalized forms, and run scanSingleUrl over them, collecting the result map. -/
def scanBatchFullDetails (env : Env) (st : St) (urls : List String) :
    List (String × BatchEntry) × St :=
  runBatchAux env ((dedupAux urls []).map jsNormalize) st

/-- The concurrency limit of the batch runner (batch endpoint file line 26). -/
def DEFAULT_CONCURRENCY : Nat := 5

/-- The maximum number of urls per batch request (batch endpoint file
line 27). -/
def MAX_BATCH_SIZE : Nat := 10

/-- A batch request body: either it lacks the urls array or it carries one. -/
inductive BatchBody where
  | missingUrls
  | withUrls (urls : List String)
deriving Repr, DecidableEq

/-- An error response body of the API: error and message. -/
structure ErrorBody where
  error : String
  message : String
deriving Repr, DecidableEq

/-- A reply of the batch endpoint: the result map, or an HTTP error status
with an error body. -/
inductive BatchReply where
  | ok (results : List (String × BatchEntry))
  | err (status : Nat) (body : ErrorBody)
deriving Repr, DecidableEq

/-- Modelled from the spec: the fastify schema scanBatchFullDetailsSchema
(batch endpoint file lines 30-42) requires a urls array of between 1 and
MAX_BATCH_SIZE strings, and per the spec a body failing validation is answered
with HTTP 422 and an error,message body without invoking the handler. -/
def scanBatchEndpoint (env : Env) (st : St) (b : BatchBody) : BatchReply × St :=
  match b with
  | .missingUrls =>
    (.err 422 { error := "invalid-request"
                message := "body must have required property urls" }, st)
  | .withUrls urls =>
    if 1 ≤ urls.length ∧ urls.length ≤ MAX_BATCH_SIZE then
      let step := scanBatchFullDetails env st urls
      (.ok step.1, step.2)
    else
      (.err 422 { error := "invalid-request"
                  message := "urls must contain between 1 and 10 items" }, st)

/-- Model of the in-flight task counts of runWithConcurrency (batch endpoint
file lines 85-105): the loop starts the tasks in order, adding each to the
executing set; after a start that makes the set reach the limit it awaits
Promise.race, upon which at least one and at most all of the executing tasks
have settled and removed themselves.  The oracle list ks chooses how many
settle at each such wait; the returned trace lists the size of the executing
set right after each start, which is where it is maximal. -/
def runWithConcurrencyTrace (limit : Nat) : List String → Nat → List Nat → List Nat
  | [], _, _ => []
  | _ :: items, n, ks =>
    if limit ≤ n + 1 then
      (n + 1) :: runWithConcurrencyTrace limit items (n + 1 - min (n + 1) (max 1 (ks.headD 1)))
        ks.tail
    else
      (n + 1) :: runWithConcurrencyTrace limit items (n + 1) ks

/-- A sample set of test fields for the content-security-policy test,
carrying a scoreDescription. -/
def sampleCspFields : List (String × String) :=
  [("expectation", "csp-implemented-with-no-unsafe"),
   ("result", "csp-implemented-with-no-unsafe"),
   ("pass", "true"), ("scoreModifier", "0"),
   ("scoreDescription", "CSP implemented without unsafe directives")]

/-- A sample tests map of an in-memory scan result. -/
def sampleTests : List (String × List (String × String)) :=
  [("content-security-policy", sampleCspFields),
   ("cookies",
    [("expectation", "cookies-secure-with-httponly-sessions"),
     ("result", "cookies-not-found"), ("pass", "true"), ("scoreModifier", "0")])]

/-- A sample in-memory scan result. -/
def sampleFullScan : FullScanResult :=
  { scanBody := [("algorithmVersion", "5"), ("grade", "A+"), ("score", "105")]
    tests := sampleTests }

/-- A sample persisted summary row. -/
def sampleRow : ScanRow :=
  { id := 1, algorithm_version := 5, start_time := 0, error := none, grade := some "A+",
    score := some 105, status_code := some 200, tests_failed := 0, tests_passed := 10,
    tests_quantity := 10 }

/-- A sample environment: cooldown 60 seconds, no base url, deterministic scan
results, every hostname resolving. -/
def sampleEnv : Env :=
  { cooldown := 60
    baseUrl := none
    scanOf := fun _ => sampleFullScan
    rowOf := fun _ _ => sampleRow
    siteCheck := fun h => .ok h }

/-- The initial state: empty database at instant zero. -/
def st0 : St := { db := [], now := 0, scans := 0, persists := 0, singles := 0 }

/-- An older cached row for the cache-hit scenarios. -/
def cachedRow : ScanRow :=
  { id := 42, algorithm_version := 5, start_time := 5, error := none, grade := some "B",
    score := some 75, status_code := some 200, tests_failed := 2, tests_passed := 8,
    tests_quantity := 10 }

/-- A state holding a cached row for example.com persisted at instant 5,
observed at instant 10. -/
def stCached : St :=
  { db := [("example.com", cachedRow)], now := 10, scans := 0, persists := 0, singles := 0 }

/-- The final state after two scanFullDetails requests for example.com, the
second arriving 30 seconds after the first, within the 60 second cooldown. -/
def twoRequestsFinal : St :=
  let s1 := (scanOrReturnRecentWithFullDetails sampleEnv st0 "example.com").2
  (scanOrReturnRecentWithFullDetails sampleEnv { s1 with now := 30 } "example.com").2

/-- An environment in which bad.example fails hostname resolution. -/
def failEnv : Env :=
  { sampleEnv with
      siteCheck := fun h =>
        if h = "bad.example" then
          .error { name := "invalid-hostname-lookup"
                   ctorName := "HostnameError"
                   message := "bad.example cannot be resolved" }
        else .ok h }

theorem toNat_ofNat_of_lt (n : Nat) (h : n < 55296) : (Char.ofNat n).toNat = n := by
  unfold Char.ofNat
  rw [dif_pos (Or.inl h : Nat.isValidChar n)]
  rfl

theorem toNat_jsToLower (c : Char) :
    (jsToLower c).toNat = if 65 ≤ c.toNat ∧ c.toNat ≤ 90 then c.toNat + 32 else c.toNat := by
  unfold jsToLower
  split
  · next h => exact toNat_ofNat_of_lt _ (by omega)
  · rfl

theorem jsToLower_of_not_upper {c : Char} (h : ¬(65 ≤ c.toNat ∧ c.toNat ≤ 90)) :
    jsToLower c = c := by
  unfold jsToLower
  rw [if_neg h]

theorem jsToLower_idem (c : Char) : jsToLower (jsToLower c) = jsToLower c := by
  by_cases h : 65 ≤ c.toNat ∧ c.toNat ≤ 90
  · have h1 : (jsToLower c).toNat = c.toNat + 32 := by rw [toNat_jsToLower, if_pos h]
    exact jsToLower_of_not_upper (by omega)
  · rw [jsToLower_of_not_upper h]
    exact jsToLower_of_not_upper h

theorem jsWhitespace_eq_false_of_ge {m : Nat} (h : 33 ≤ m) :
    (m == 32 || m == 9 || m == 10 || m == 11 || m == 12 || m == 13) = false := by
  simp only [Bool.or_eq_false_iff, beq_eq_false_iff_ne, ne_eq]
  omega

theorem jsWhitespace_jsToLower (c : Char) : jsWhitespace (jsToLower c) = jsWhitespace c := by
  by_cases h : 65 ≤ c.toNat ∧ c.toNat ≤ 90
  · have h1 : (jsToLower c).toNat = c.toNat + 32 := by rw [toNat_jsToLower, if_pos h]
    unfold jsWhitespace
    rw [h1]
    rw [jsWhitespace_eq_false_of_ge (by omega), jsWhitespace_eq_false_of_ge (by omega)]
  · rw [jsToLower_of_not_upper h]

theorem dropWhile_head_false {p : Char → Bool} {l : List Char} {a : Char}
    (h : (l.dropWhile p).head? = some a) : p a = false := by
  induction l with
  | nil => simp [List.dropWhile] at h
  | cons c t ih =>
    rw [List.dropWhile] at h
    by_cases hc : p c
    · rw [hc] at h; exact ih h
    · simp only [hc] at h
      simp only [List.head?] at h
      cases h
      simpa using hc

theorem dropWhile_of_head_false {p : Char → Bool} {l : List Char}
    (h : ∀ a, l.head? = some a → p a = false) : l.dropWhile p = l := by
  cases l with
  | nil => rfl
  | cons c t =>
    rw [List.dropWhile]
    rw [h c rfl]

theorem jsTrimList_of_trimmed {l : List Char} (h : TrimmedAt jsWhitespace l) :
    jsTrimList l = l := by
  unfold jsTrimList
  rw [dropWhile_of_head_false h.1]
  rw [dropWhile_of_head_false (by
    intro a ha
    rw [List.head?_reverse] at ha
    exact h.2 a ha)]
  exact List.reverse_reverse l

theorem getLast?_of_sublist_suffix {p : Char → Bool} (l : List Char) :
    (l.dropWhile p) ≠ [] → (l.dropWhile p).getLast? = l.getLast? := by
  induction l with
  | nil => intro h; simp [List.dropWhile] at h
  | cons c t ih =>
    intro h
    rw [List.dropWhile]
    rw [List.dropWhile] at h
    by_cases hc : p c
    · rw [hc]; rw [hc] at h
      rw [ih h]
      cases ht : t with
      | nil => rw [ht] at h; simp [List.dropWhile] at h
      | cons x xs => simp [List.getLast?_cons_cons]
    · simp only [hc]

theorem jsTrimList_trimmed (l : List Char) : TrimmedAt jsWhitespace (jsTrimList l) := by
  constructor
  · intro a ha
    unfold jsTrimList at ha
    rw [List.head?_reverse] at ha
    set X := (l.dropWhile jsWhitespace).reverse with hX
    have hne : X.dropWhile jsWhitespace ≠ [] := by
      intro hnil
      rw [hnil] at ha
      simp at ha
    rw [getLast?_of_sublist_suffix X hne] at ha
    rw [hX, List.getLast?_reverse] at ha
    exact dropWhile_head_false (l := l) ha
  · intro a ha
    unfold jsTrimList at ha
    rw [List.getLast?_reverse] at ha
    exact dropWhile_head_false ha

theorem trimmed_map_jsToLower {l : List Char} (h : TrimmedAt jsWhitespace l) :
    TrimmedAt jsWhitespace (l.map jsToLower) := by
  constructor
  · intro a ha
    rw [List.head?_map] at ha
    cases hh : l.head? with
    | none => rw [hh] at ha; simp at ha
    | some b =>
      rw [hh] at ha
      simp only [Option.map_some'] at ha
      cases ha
      rw [jsWhitespace_jsToLower]
      exact h.1 b hh
  · intro a ha
    rw [List.getLast?_map] at ha
    cases hh : l.getLast? with
    | none => rw [hh] at ha; simp at ha
    | some b =>
      rw [hh] at ha
      simp only [Option.map_some'] at ha
      cases ha
      rw [jsWhitespace_jsToLower]
      exact h.2 b hh

theorem map_jsToLower_idem (l : List Char) :
    (l.map jsToLower).map jsToLower = l.map jsToLower := by
  rw [List.map_map]
  apply List.map_congr_left
  intro a _
  exact jsToLower_idem a

theorem toList_mk (l : List Char) : (String.mk l).toList = l := rfl

theorem jsNormalize_idem (s : String) : jsNormalize (jsNormalize s) = jsNormalize s := by
  unfold jsNormalize
  rw [toList_mk]
  rw [jsTrimList_of_trimmed (trimmed_map_jsToLower (jsTrimList_trimmed s.toList))]
  rw [map_jsToLower_idem]

example : canonicalize "http://Example.COM:8080/Path" = some "example.com:8080/Path" := by decide

example : canonicalize "https://mdn.dev/docs?q=1#frag" = some "mdn.dev/docs" := by decide

example : canonicalize "localhost" = some "localhost" := by decide

example : canonicalize "bad host.com" = none := by decide

example : canonicalize "1.2.3.4" = none := by decide

example : canonicalize "example.com:0" = none := by decide

example : canonicalize "example.com:70000" = none := by decide

theorem takeWhile_append_all {p : Char → Bool} {a : List Char} (b : List Char)
    (h : ∀ c ∈ a, p c = true) : (a ++ b).takeWhile p = a ++ b.takeWhile p := by
  induction a with
  | nil => rfl
  | cons c t ih =>
    rw [List.cons_append, List.takeWhile_cons, h c (List.mem_cons_self c t)]
    rw [if_pos rfl, List.cons_append, ih (fun d hd => h d (List.mem_cons_of_mem c hd))]

theorem dropWhile_append_all {p : Char → Bool} {a : List Char} (b : List Char)
    (h : ∀ c ∈ a, p c = true) : (a ++ b).dropWhile p = b.dropWhile p := by
  induction a with
  | nil => rfl
  | cons c t ih =>
    rw [List.cons_append, List.dropWhile_cons, h c (List.mem_cons_self c t)]
    rw [if_pos rfl]
    exact ih (fun d hd => h d (List.mem_cons_of_mem c hd))

theorem takeWhile_all {p : Char → Bool} {l : List Char}
    (h : ∀ c ∈ l, p c = true) : l.takeWhile p = l := by
  induction l with
  | nil => rfl
  | cons c t ih =>
    rw [List.takeWhile_cons, h c (List.mem_cons_self c t)]
    rw [if_pos rfl, ih (fun d hd => h d (List.mem_cons_of_mem c hd))]

theorem map_fix {f : Char → Char} {l : List Char}
    (h : ∀ c ∈ l, f c = c) : l.map f = l := by
  induction l with
  | nil => rfl
  | cons c t ih =>
    rw [List.map_cons, h c (List.mem_cons_self c t), ih (fun d hd => h d (List.mem_cons_of_mem c hd))]

theorem hostChar_toNat {c : Char} (h : hostChar c = true) :
    (97 ≤ c.toNat ∧ c.toNat ≤ 122) ∨ (48 ≤ c.toNat ∧ c.toNat ≤ 57) ∨ c.toNat = 45 ∨ c.toNat = 46 := by
  simp only [hostChar, labelChar, Bool.or_eq_true, Bool.and_eq_true, decide_eq_true_eq,
    beq_iff_eq] at h
  tauto

theorem isDigitChar_toNat {c : Char} (h : isDigitChar c = true) :
    48 ≤ c.toNat ∧ c.toNat ≤ 57 := by
  simp only [isDigitChar, Bool.and_eq_true, decide_eq_true_eq] at h
  exact h

theorem hostChar_not_white {c : Char} (h : hostChar c = true) : jsWhitespace c = false := by
  have h2 := hostChar_toNat h
  unfold jsWhitespace
  exact jsWhitespace_eq_false_of_ge (by omega)

theorem isDigitChar_not_white {c : Char} (h : isDigitChar c = true) : jsWhitespace c = false := by
  have h2 := isDigitChar_toNat h
  unfold jsWhitespace
  exact jsWhitespace_eq_false_of_ge (by omega)

theorem hostChar_qmark (c : Char) (h : hostChar c = true) :
    (c.toNat != 63 && c.toNat != 35) = true := by
  have h2 := hostChar_toNat h
  simp only [Bool.and_eq_true, bne_iff_ne, ne_eq]
  omega

theorem isDigitChar_qmark (c : Char) (h : isDigitChar c = true) :
    (c.toNat != 63 && c.toNat != 35) = true := by
  have h2 := isDigitChar_toNat h
  simp only [Bool.and_eq_true, bne_iff_ne, ne_eq]
  omega

theorem hostChar_not_slash (c : Char) (h : hostChar c = true) : (c.toNat != 47) = true := by
  have h2 := hostChar_toNat h
  simp only [bne_iff_ne, ne_eq]
  omega

theorem isDigitChar_not_slash (c : Char) (h : isDigitChar c = true) : (c.toNat != 47) = true := by
  have h2 := isDigitChar_toNat h
  simp only [bne_iff_ne, ne_eq]
  omega

theorem hostChar_not_colon (c : Char) (h : hostChar c = true) : (c.toNat != 58) = true := by
  have h2 := hostChar_toNat h
  simp only [bne_iff_ne, ne_eq]
  omega

theorem hostChar_not_colon_beq (c : Char) (h : hostChar c = true) : (c.toNat == 58) = false := by
  have h2 := hostChar_toNat h
  simp only [beq_eq_false_iff_ne, ne_eq]
  omega

theorem hostChar_lower_fix (c : Char) (h : hostChar c = true) : jsToLower c = c := by
  have h2 := hostChar_toNat h
  exact jsToLower_of_not_upper (by omega)

theorem validHost_ne_nil {h : List Char} (hv : validHost h = true) : h ≠ [] := by
  simp only [validHost, Bool.and_eq_true, Bool.not_eq_true'] at hv
  intro hnil
  rw [hnil] at hv
  simp at hv

theorem validHost_chars {h : List Char} (hv : validHost h = true) :
    ∀ c ∈ h, hostChar c = true := by
  simp only [validHost, Bool.and_eq_true, List.all_eq_true] at hv
  exact hv.1.1.2

theorem validHost_dot {h : List Char} (hv : validHost h = true) :
    h.any (fun c => c.toNat == 46) = true ∨ h = localhostChars := by
  simp only [validHost, Bool.and_eq_true, Bool.or_eq_true, beq_iff_eq] at hv
  exact hv.2

theorem prefix_cons_rest_absurd {c : Char} {rem : List Char} {a : Char} {t2 : List Char}
    (hpre : List.isPrefixOf (c :: rem) (a :: t2) = true)
    (ha : a.toNat = 58 ∨ a.toNat = 47) (hc : 58 < c.toNat) : False := by
  simp only [List.isPrefixOf, Bool.and_eq_true, beq_iff_eq] at hpre
  obtain ⟨rfl, _⟩ := hpre
  omega

theorem schemeHttp_no_match (host rest : List Char)
    (hhost : ∀ c ∈ host, hostChar c = true)
    (hdot : host.any (fun c => c.toNat == 46) = true ∨ host = localhostChars)
    (hr : rest = [] ∨ ∃ a t2, rest = a :: t2 ∧ (a.toNat = 58 ∨ a.toNat = 47)) :
    schemeHttp.isPrefixOf (host ++ rest) = false := by
  rw [Bool.eq_false_iff]
  intro hpre
  rcases host with _ | ⟨c1, host⟩
  · simp only [List.append_eq, List.nil_append] at hpre
    rcases hr with rfl | ⟨a, t2, rfl, ha⟩
    · simp [schemeHttp, List.isPrefixOf] at hpre
    · exact prefix_cons_rest_absurd hpre ha (by decide)
  simp only [schemeHttp, List.cons_append, List.isPrefixOf, Bool.and_eq_true, beq_iff_eq] at hpre
  obtain ⟨rfl, hpre⟩ := hpre
  rcases host with _ | ⟨c2, host⟩
  · simp only [List.append_eq, List.nil_append] at hpre
    rcases hr with rfl | ⟨a, t2, rfl, ha⟩
    · simp [List.isPrefixOf] at hpre
    · exact prefix_cons_rest_absurd hpre ha (by decide)
  simp only [List.cons_append, List.isPrefixOf, Bool.and_eq_true, beq_iff_eq] at hpre
  obtain ⟨rfl, hpre⟩ := hpre
  rcases host with _ | ⟨c3, host⟩
  · simp only [List.append_eq, List.nil_append] at hpre
    rcases hr with rfl | ⟨a, t2, rfl, ha⟩
    · simp [List.isPrefixOf] at hpre
    · exact prefix_cons_rest_absurd hpre ha (by decide)
  simp only [List.cons_append, List.isPrefixOf, Bool.and_eq_true, beq_iff_eq] at hpre
  obtain ⟨rfl, hpre⟩ := hpre
  rcases host with _ | ⟨c4, host⟩
  · simp only [List.append_eq, List.nil_append] at hpre
    rcases hr with rfl | ⟨a, t2, rfl, ha⟩
    · simp [List.isPrefixOf] at hpre
    · exact prefix_cons_rest_absurd hpre ha (by decide)
  simp only [List.cons_append, List.isPrefixOf, Bool.and_eq_true, beq_iff_eq] at hpre
  obtain ⟨rfl, hpre⟩ := hpre
  rcases host with _ | ⟨c5, host⟩
  · rcases hdot with hd | hd
    · exact absurd hd (by decide)
    · exact absurd hd (by decide)
  simp only [List.cons_append, List.isPrefixOf, Bool.and_eq_true, beq_iff_eq] at hpre
  obtain ⟨rfl, hpre⟩ := hpre
  exact absurd (hhost ':' (by simp)) (by decide)

theorem schemeHttps_no_match (host rest : List Char)
    (hhost : ∀ c ∈ host, hostChar c = true)
    (hdot : host.any (fun c => c.toNat == 46) = true ∨ host = localhostChars)
    (hr : rest = [] ∨ ∃ a t2, rest = a :: t2 ∧ (a.toNat = 58 ∨ a.toNat = 47)) :
    schemeHttps.isPrefixOf (host ++ rest) = false := by
  rw [Bool.eq_false_iff]
  intro hpre
  rcases host with _ | ⟨c1, host⟩
  · simp only [List.append_eq, List.nil_append] at hpre
    rcases hr with rfl | ⟨a, t2, rfl, ha⟩
    · simp [schemeHttps, List.isPrefixOf] at hpre
    · exact prefix_cons_rest_absurd hpre ha (by decide)
  simp only [schemeHttps, List.cons_append, List.isPrefixOf, Bool.and_eq_true, beq_iff_eq] at hpre
  obtain ⟨rfl, hpre⟩ := hpre
  rcases host with _ | ⟨c2, host⟩
  · simp only [List.append_eq, List.nil_append] at hpre
    rcases hr with rfl | ⟨a, t2, rfl, ha⟩
    · simp [List.isPrefixOf] at hpre
    · exact prefix_cons_rest_absurd hpre ha (by decide)
  simp only [List.cons_append, List.isPrefixOf, Bool.and_eq_true, beq_iff_eq] at hpre
  obtain ⟨rfl, hpre⟩ := hpre
  rcases host with _ | ⟨c3, host⟩
  · simp only [List.append_eq, List.nil_append] at hpre
    rcases hr with rfl | ⟨a, t2, rfl, ha⟩
    · simp [List.isPrefixOf] at hpre
    · exact prefix_cons_rest_absurd hpre ha (by decide)
  simp only [List.cons_append, List.isPrefixOf, Bool.and_eq_true, beq_iff_eq] at hpre
  obtain ⟨rfl, hpre⟩ := hpre
  rcases host with _ | ⟨c4, host⟩
  · simp only [List.append_eq, List.nil_append] at hpre
    rcases hr with rfl | ⟨a, t2, rfl, ha⟩
    · simp [List.isPrefixOf] at hpre
    · exact prefix_cons_rest_absurd hpre ha (by decide)
  simp only [List.cons_append, List.isPrefixOf, Bool.and_eq_true, beq_iff_eq] at hpre
  obtain ⟨rfl, hpre⟩ := hpre
  rcases host with _ | ⟨c5, host⟩
  · simp only [List.append_eq, List.nil_append] at hpre
    rcases hr with rfl | ⟨a, t2, rfl, ha⟩
    · simp [List.isPrefixOf] at hpre
    · exact prefix_cons_rest_absurd hpre ha (by decide)
  simp only [List.cons_append, List.isPrefixOf, Bool.and_eq_true, beq_iff_eq] at hpre
  obtain ⟨rfl, hpre⟩ := hpre
  rcases host with _ | ⟨c6, host⟩
  · rcases hdot with hd | hd
    · exact absurd hd (by decide)
    · exact absurd hd (by decide)
  simp only [List.cons_append, List.isPrefixOf, Bool.and_eq_true, beq_iff_eq] at hpre
  obtain ⟨rfl, hpre⟩ := hpre
  exact absurd (hhost ':' (by simp)) (by decide)

theorem stripScheme_canonical (host rest : List Char)
    (hhost : ∀ c ∈ host, hostChar c = true)
    (hdot : host.any (fun c => c.toNat == 46) = true ∨ host = localhostChars)
    (hr : rest = [] ∨ ∃ a t2, rest = a :: t2 ∧ (a.toNat = 58 ∨ a.toNat = 47)) :
    stripScheme (host ++ rest) = host ++ rest := by
  unfold stripScheme
  rw [schemeHttp_no_match host rest hhost hdot hr, schemeHttps_no_match host rest hhost hdot hr]
  simp

theorem stripScheme_subset (l : List Char) : ∀ c ∈ stripScheme l, c ∈ l := by
  intro c hc
  unfold stripScheme at hc
  split at hc
  · exact List.drop_subset _ _ hc
  · split at hc
    · exact List.drop_subset _ _ hc
    · exact hc

theorem splitPort_port_facts {auth rawHost ps : List Char}
    (h : splitPort auth = some (rawHost, some ps)) :
    ps ≠ [] ∧ ps.all isDigitChar = true ∧ 1 ≤ digitsVal ps ∧ digitsVal ps ≤ 65535 := by
  unfold splitPort at h
  split at h
  · split at h
    · cases h
    · split at h
      · next hc =>
        simp only [Option.some.injEq, Prod.mk.injEq] at h
        obtain ⟨_, h2⟩ := h
        subst h2
        exact hc
      · cases h
  · simp at h

theorem canonicalize_host_path (host path : List Char)
    (hval : validHost host = true) (hip : isIpLiteral host = false)
    (hpw : ∀ c ∈ path, jsWhitespace c = false)
    (hpq : ∀ c ∈ path, (c.toNat != 63 && c.toNat != 35) = true)
    (hph : path = [] ∨ ∃ a t2, path = a :: t2 ∧ a.toNat = 47) :
    canonicalize (String.mk (host ++ path)) = some (String.mk (host ++ path)) := by
  have hchars := validHost_chars hval
  have hne := validHost_ne_nil hval
  have hrest : path = [] ∨ ∃ a t2, path = a :: t2 ∧ (a.toNat = 58 ∨ a.toNat = 47) := by
    rcases hph with hp | ⟨a, t2, hp, ha⟩
    · exact Or.inl hp
    · exact Or.inr ⟨a, t2, hp, Or.inr ha⟩
  have e1 : ¬((host ++ path).isEmpty = true) := by
    simp only [List.isEmpty_iff, List.append_eq_nil]
    intro hcontra
    exact hne hcontra.1
  have e2 : ¬((host ++ path).any jsWhitespace = true) := by
    rw [List.any_eq_true]
    rintro ⟨c, hc, hw⟩
    rcases List.mem_append.mp hc with hm | hm
    · simp [hostChar_not_white (hchars c hm)] at hw
    · simp [hpw c hm] at hw
  have hq : ((host ++ path).takeWhile (fun c => c.toNat != 63 && c.toNat != 35)) = host ++ path := by
    apply takeWhile_all
    intro c hc
    rcases List.mem_append.mp hc with hm | hm
    · exact hostChar_qmark c (hchars c hm)
    · exact hpq c hm
  have hslashT : path.takeWhile (fun c => c.toNat != 47) = [] := by
    rcases hph with rfl | ⟨a, t2, rfl, ha⟩
    · rfl
    · simp [List.takeWhile_cons, ha]
  have hslashD : path.dropWhile (fun c => c.toNat != 47) = path := by
    rcases hph with rfl | ⟨a, t2, rfl, ha⟩
    · rfl
    · simp [List.dropWhile_cons, ha]
  have hauth : ((host ++ path).takeWhile (fun c => c.toNat != 47)) = host := by
    rw [takeWhile_append_all path (fun c hc => hostChar_not_slash c (hchars c hc)), hslashT,
      List.append_nil]
  have hpathD : ((host ++ path).dropWhile (fun c => c.toNat != 47)) = path := by
    rw [dropWhile_append_all path (fun c hc => hostChar_not_slash c (hchars c hc)), hslashD]
  have e3 : host.any (fun c => c.toNat == 58) = false := by
    rw [List.any_eq_false]
    intro c hc
    rw [hostChar_not_colon_beq c (hchars c hc)]
    simp
  have e4 : splitPort host = some (host, none) := by
    unfold splitPort
    rw [e3]
    rw [if_neg Bool.false_ne_true]
  have hstrip : stripScheme (host ++ path) = host ++ path :=
    stripScheme_canonical host path hchars (validHost_dot hval) hrest
  have hmap : host.map jsToLower = host := map_fix (fun c hc => hostChar_lower_fix c (hchars c hc))
  unfold canonicalize
  rw [toList_mk, if_neg e1, if_neg e2, hstrip, hq, hauth, hpathD, e4]
  dsimp only
  rw [hmap, if_pos ⟨hval, hip⟩]

theorem canonicalize_host_port_path (host ps path : List Char)
    (hval : validHost host = true) (hip : isIpLiteral host = false)
    (hpsne : ps ≠ []) (hpsd : ps.all isDigitChar = true)
    (hps1 : 1 ≤ digitsVal ps) (hps2 : digitsVal ps ≤ 65535)
    (hpw : ∀ c ∈ path, jsWhitespace c = false)
    (hpq : ∀ c ∈ path, (c.toNat != 63 && c.toNat != 35) = true)
    (hph : path = [] ∨ ∃ a t2, path = a :: t2 ∧ a.toNat = 47) :
    canonicalize (String.mk (host ++ ':' :: (ps ++ path))) =
      some (String.mk (host ++ ':' :: (ps ++ path))) := by
  have hchars := validHost_chars hval
  have hne := validHost_ne_nil hval
  have hdig : ∀ c ∈ ps, isDigitChar c = true := List.all_eq_true.mp hpsd
  have hrest : ':' :: (ps ++ path) = [] ∨
      ∃ a t2, ':' :: (ps ++ path) = a :: t2 ∧ (a.toNat = 58 ∨ a.toNat = 47) :=
    Or.inr ⟨':', ps ++ path, rfl, Or.inl (by decide)⟩
  have e1 : ¬((host ++ ':' :: (ps ++ path)).isEmpty = true) := by
    simp only [List.isEmpty_iff, List.append_eq_nil]
    intro hcontra
    exact hne hcontra.1
  have e2 : ¬((host ++ ':' :: (ps ++ path)).any jsWhitespace = true) := by
    rw [List.any_eq_true]
    rintro ⟨c, hc, hw⟩
    rcases List.mem_append.mp hc with hm | hm
    · simp [hostChar_not_white (hchars c hm)] at hw
    · rcases List.mem_cons.mp hm with rfl | hm2
      · simp [jsWhitespace] at hw
      · rcases List.mem_append.mp hm2 with hm3 | hm3
        · simp [isDigitChar_not_white (hdig c hm3)] at hw
        · simp [hpw c hm3] at hw
  have hq : ((host ++ ':' :: (ps ++ path)).takeWhile
      (fun c => c.toNat != 63 && c.toNat != 35)) = host ++ ':' :: (ps ++ path) := by
    apply takeWhile_all
    intro c hc
    rcases List.mem_append.mp hc with hm | hm
    · exact hostChar_qmark c (hchars c hm)
    · rcases List.mem_cons.mp hm with rfl | hm2
      · decide
      · rcases List.mem_append.mp hm2 with hm3 | hm3
        · exact isDigitChar_qmark c (hdig c hm3)
        · exact hpq c hm3
  have hslashT : path.takeWhile (fun c => c.toNat != 47) = [] := by
    rcases hph with rfl | ⟨a, t2, rfl, ha⟩
    · rfl
    · simp [List.takeWhile_cons, ha]
  have hslashD : path.dropWhile (fun c => c.toNat != 47) = path := by
    rcases hph with rfl | ⟨a, t2, rfl, ha⟩
    · rfl
    · simp [List.dropWhile_cons, ha]
  have hauth : ((host ++ ':' :: (ps ++ path)).takeWhile (fun c => c.toNat != 47)) =
      host ++ ':' :: ps := by
    rw [takeWhile_append_all _ (fun c hc => hostChar_not_slash c (hchars c hc))]
    rw [List.takeWhile_cons]
    rw [show ((':' : Char).toNat != 47) = true by decide, if_pos rfl]
    rw [takeWhile_append_all _ (fun c hc => isDigitChar_not_slash c (hdig c hc)), hslashT,
      List.append_nil]
  have hpathD : ((host ++ ':' :: (ps ++ path)).dropWhile (fun c => c.toNat != 47)) = path := by
    rw [dropWhile_append_all _ (fun c hc => hostChar_not_slash c (hchars c hc))]
    rw [List.dropWhile_cons]
    rw [show ((':' : Char).toNat != 47) = true by decide, if_pos rfl]
    rw [dropWhile_append_all _ (fun c hc => isDigitChar_not_slash c (hdig c hc)), hslashD]
  have e4 : splitPort (host ++ ':' :: ps) = some (host, some ps) := by
    unfold splitPort
    rw [if_pos (List.any_eq_true.mpr
      ⟨':', List.mem_append_right host (List.mem_cons_self ':' ps), by decide⟩)]
    rw [takeWhile_append_all _ (fun c hc => hostChar_not_colon c (hchars c hc))]
    rw [List.takeWhile_cons]
    rw [show ((':' : Char).toNat != 58) = false by decide]
    rw [if_neg Bool.false_ne_true, List.append_nil]
    rw [dropWhile_append_all _ (fun c hc => hostChar_not_colon c (hchars c hc))]
    rw [List.dropWhile_cons]
    rw [show ((':' : Char).toNat != 58) = false by decide]
    rw [if_neg Bool.false_ne_true]
    dsimp only
    rw [if_pos ⟨hpsne, hpsd, hps1, hps2⟩]
  have hstrip : stripScheme (host ++ ':' :: (ps ++ path)) = host ++ ':' :: (ps ++ path) :=
    stripScheme_canonical host (':' :: (ps ++ path)) hchars (validHost_dot hval) hrest
  have hmap : host.map jsToLower = host := map_fix (fun c hc => hostChar_lower_fix c (hchars c hc))
  unfold canonicalize
  rw [toList_mk, if_neg e1, if_neg e2, hstrip, hq, hauth, hpathD, e4]
  dsimp only
  rw [hmap, if_pos ⟨hval, hip⟩]

theorem canonicalize_idem {s t : String} (h : canonicalize s = some t) :
    canonicalize t = some t := by
  unfold canonicalize at h
  by_cases e1 : s.toList.isEmpty = true
  · rw [if_pos e1] at h; cases h
  rw [if_neg e1] at h
  by_cases e2 : s.toList.any jsWhitespace = true
  · rw [if_pos e2] at h; cases h
  rw [if_neg e2] at h
  cases hsp : splitPort (((stripScheme s.toList).takeWhile
      (fun c => c.toNat != 63 && c.toNat != 35)).takeWhile (fun c => c.toNat != 47)) with
  | none => rw [hsp] at h; cases h
  | some pr =>
    obtain ⟨rawHost, pp⟩ := pr
    rw [hsp] at h
    dsimp only at h
    by_cases e3 : validHost (rawHost.map jsToLower) = true ∧
        isIpLiteral (rawHost.map jsToLower) = false
    case neg => rw [if_neg e3] at h; cases h
    rw [if_pos e3] at h
    have hpw : ∀ c ∈ ((stripScheme s.toList).takeWhile
        (fun c => c.toNat != 63 && c.toNat != 35)).dropWhile (fun c => c.toNat != 47),
        jsWhitespace c = false := by
      intro c hc
      have hc2 := (List.dropWhile_sublist _).subset hc
      have hc3 := (List.takeWhile_sublist _).subset hc2
      have hc4 := stripScheme_subset s.toList c hc3
      have e2f : s.toList.any jsWhitespace = false := Bool.eq_false_iff.mpr e2
      have := List.any_eq_false.mp e2f c hc4
      exact Bool.eq_false_iff.mpr this
    have hpq : ∀ c ∈ ((stripScheme s.toList).takeWhile
        (fun c => c.toNat != 63 && c.toNat != 35)).dropWhile (fun c => c.toNat != 47),
        (c.toNat != 63 && c.toNat != 35) = true := by
      intro c hc
      have hc2 := (List.dropWhile_sublist _).subset hc
      exact List.mem_takeWhile_imp (p := fun c : Char => c.toNat != 63 && c.toNat != 35) hc2
    have hph : (((stripScheme s.toList).takeWhile
        (fun c => c.toNat != 63 && c.toNat != 35)).dropWhile (fun c => c.toNat != 47)) = [] ∨
        ∃ a t2, (((stripScheme s.toList).takeWhile
          (fun c => c.toNat != 63 && c.toNat != 35)).dropWhile (fun c => c.toNat != 47)) =
            a :: t2 ∧ a.toNat = 47 := by
      cases hd : (((stripScheme s.toList).takeWhile
          (fun c => c.toNat != 63 && c.toNat != 35)).dropWhile (fun c => c.toNat != 47)) with
      | nil => exact Or.inl rfl
      | cons a t2 =>
        refine Or.inr ⟨a, t2, rfl, ?_⟩
        have hhead : ((fun c => c.toNat != 47) a) = false :=
          dropWhile_head_false (by rw [hd]; rfl)
        simpa using hhead
    cases pp with
    | none =>
      dsimp only at h
      cases h
      exact canonicalize_host_path _ _ e3.1 e3.2 hpw hpq hph
    | some ps =>
      dsimp only at h
      have hps := splitPort_port_facts hsp
      cases h
      exact canonicalize_host_port_path _ _ _ e3.1 e3.2 hps.1 hps.2.1 hps.2.2.1 hps.2.2.2
        hpw hpq hph

example : encodeURIComponent "example.com:8080/x" = "example.com%3A8080%2Fx" := by decide

theorem scanWithFullDetails_eq :
    scanWithFullDetails = scanOrReturnRecentWithFullDetails := rfl

theorem scanOrReturnRecent_hit (env : Env) (st : St) (site : String) (row : ScanRow)
    (h : selectScanLatestScanBySite st.db st.now site env.cooldown = some row) :
    scanOrReturnRecentWithFullDetails env st site =
      ({ id := row.id
         details_url :=
           match env.baseUrl with
           | some b => b ++ "/analyze?host=" ++ encodeURIComponent site
           | none => "https://developer.mozilla.org/en-US/observatory/analyze?host=" ++
               encodeURIComponent site
         algorithm_version := row.algorithm_version
         scanned_at := row.start_time
         error := row.error
         grade := row.grade
         score := row.score
         status_code := row.status_code
         tests_failed := row.tests_failed
         tests_passed := row.tests_passed
         tests_quantity := row.tests_quantity
         fullDetails := { scan := (env.scanOf site).scanBody
                          tests := stripScoreDescriptions (env.scanOf site).tests } },
       { st with scans := st.scans + 1 }) := by
  unfold scanOrReturnRecentWithFullDetails scan
  rw [h]

theorem scanOrReturnRecent_miss (env : Env) (st : St) (site : String)
    (h : selectScanLatestScanBySite st.db st.now site env.cooldown = none) :
    scanOrReturnRecentWithFullDetails env st site =
      ({ id := ({ env.rowOf site st.now with start_time := st.now } : ScanRow).id
         details_url :=
           match env.baseUrl with
           | some b => b ++ "/analyze?host=" ++ encodeURIComponent site
           | none => "https://developer.mozilla.org/en-US/observatory/analyze?host=" ++
               encodeURIComponent site
         algorithm_version := ({ env.rowOf site st.now with
           start_time := st.now } : ScanRow).algorithm_version
         scanned_at := st.now
         error := ({ env.rowOf site st.now with start_time := st.now } : ScanRow).error
         grade := ({ env.rowOf site st.now with start_time := st.now } : ScanRow).grade
         score := ({ env.rowOf site st.now with start_time := st.now } : ScanRow).score
         status_code := ({ env.rowOf site st.now with
           start_time := st.now } : ScanRow).status_code
         tests_failed := ({ env.rowOf site st.now with
           start_time := st.now } : ScanRow).tests_failed
         tests_passed := ({ env.rowOf site st.now with
           start_time := st.now } : ScanRow).tests_passed
         tests_quantity := ({ env.rowOf site st.now with
           start_time := st.now } : ScanRow).tests_quantity
         fullDetails := { scan := (env.scanOf site).scanBody
                          tests := stripScoreDescriptions (env.scanOf site).tests } },
       { st with
          db := (site, { env.rowOf site st.now with start_time := st.now }) :: st.db
          scans := st.scans + 1 + 1
          persists := st.persists + 1 }) := by
  unfold scanOrReturnRecentWithFullDetails scan executeScan
  rw [h]

theorem select_none_of_fresh (db : List (String × ScanRow)) (now : Nat) (site : String)
    (age : Nat) (hfresh : ∀ e ∈ db, e.1 ≠ site) :
    selectScanLatestScanBySite db now site age = none := by
  unfold selectScanLatestScanBySite
  rw [List.find?_eq_none.mpr ?_]
  · rfl
  · intro e he
    simp only [Bool.and_eq_true, beq_iff_eq]
    rintro ⟨h1, _⟩
    exact hfresh e he h1

theorem select_cons_young (db : List (String × ScanRow)) (now : Nat) (site : String)
    (age : Nat) (row : ScanRow) (h : now < row.start_time + age) :
    selectScanLatestScanBySite ((site, row) :: db) now site age = some row := by
  unfold selectScanLatestScanBySite
  rw [List.find?_cons_of_pos]
  · rfl
  · simp only [Bool.and_eq_true, beq_iff_eq, decide_eq_true_eq]
    exact ⟨trivial, h⟩

/-- C1 counterexample: two scanFullDetails requests for the same siteKey 30
seconds apart with a 60 second cooldown perform three probing retrievals, not
at most one - the first request scans and persists and scans again in memory,
the second is served its summary from the cached row but still runs an
in-memory probing scan for fullDetails. -/
theorem cooldown_single_retrieval_refuted :
    twoRequestsFinal.scans = 3 ∧ ¬(twoRequestsFinal.scans - st0.scans ≤ 1) := by
  constructor
  · decide
  · decide

/-- C1 (amended): for two scanFullDetails requests for a siteKey with no prior
rows, the second within the cooldown window of the first, exactly one
persisting scan (executeScan) is performed; the second request is served its
summary from the row the first request cached; each of the two requests still
runs a fresh in-memory probing scan, so three scanner runs happen in total. -/
theorem cooldown_at_most_one_persisting_scan (env : Env) (st : St) (site : String) (t1 : Nat)
    (hfresh : ∀ e ∈ st.db, e.1 ≠ site) (h1 : t1 < st.now + env.cooldown) :
    ((scanOrReturnRecentWithFullDetails env
        { (scanOrReturnRecentWithFullDetails env st site).2 with now := t1 }
        site).2.persists = st.persists + 1) ∧
    (responseSummaryRow (scanOrReturnRecentWithFullDetails env
        { (scanOrReturnRecentWithFullDetails env st site).2 with now := t1 }
        site).1 = { env.rowOf site st.now with start_time := st.now }) ∧
    ((scanOrReturnRecentWithFullDetails env
        { (scanOrReturnRecentWithFullDetails env st site).2 with now := t1 }
        site).2.scans = st.scans + 3) := by
  have hsel1 : selectScanLatestScanBySite st.db st.now site env.cooldown = none :=
    select_none_of_fresh st.db st.now site env.cooldown hfresh
  rw [scanOrReturnRecent_miss env st site hsel1]
  have hsel2 : selectScanLatestScanBySite
      ((site, { env.rowOf site st.now with start_time := st.now }) :: st.db) t1 site
      env.cooldown = some { env.rowOf site st.now with start_time := st.now } :=
    select_cons_young st.db t1 site env.cooldown _ h1
  rw [scanOrReturnRecent_hit env _ site _ hsel2]
  refine ⟨rfl, rfl, ?_⟩
  show st.scans + 1 + 1 + 1 = st.scans + 3
  omega

/-- C1 witness at the sample environment. -/
theorem cooldown_at_most_one_persisting_scan_witness :
    ((scanOrReturnRecentWithFullDetails sampleEnv
        { (scanOrReturnRecentWithFullDetails sampleEnv st0 "example.com").2 with now := 30 }
        "example.com").2.persists = st0.persists + 1) ∧
    (responseSummaryRow (scanOrReturnRecentWithFullDetails sampleEnv
        { (scanOrReturnRecentWithFullDetails sampleEnv st0 "example.com").2 with now := 30 }
        "example.com").1 =
      { sampleEnv.rowOf "example.com" st0.now with start_time := st0.now }) ∧
    ((scanOrReturnRecentWithFullDetails sampleEnv
        { (scanOrReturnRecentWithFullDetails sampleEnv st0 "example.com").2 with now := 30 }
        "example.com").2.scans = st0.scans + 3) :=
  cooldown_at_most_one_persisting_scan sampleEnv st0 "example.com" 30 (by decide) (by decide)

/-- C2: a scanFullDetails call serves its summary fields from the latest
young cached row when one exists (persisting nothing), and otherwise from the
row produced and persisted by a new executed scan; in either case it
additionally runs a fresh in-memory scan whose scan object and
scoreDescription-stripped tests populate fullDetails. -/
theorem scanFullDetails_summary_and_fullDetails (env : Env) (st : St) (site : String) :
    (∀ row, selectScanLatestScanBySite st.db st.now site env.cooldown = some row →
      responseSummaryRow (scanOrReturnRecentWithFullDetails env st site).1 = row ∧
      (scanOrReturnRecentWithFullDetails env st site).2.persists = st.persists ∧
      (scanOrReturnRecentWithFullDetails env st site).2.scans = st.scans + 1) ∧
    (selectScanLatestScanBySite st.db st.now site env.cooldown = none →
      responseSummaryRow (scanOrReturnRecentWithFullDetails env st site).1 =
        { env.rowOf site st.now with start_time := st.now } ∧
      (scanOrReturnRecentWithFullDetails env st site).2.db =
        (site, { env.rowOf site st.now with start_time := st.now }) :: st.db ∧
      (scanOrReturnRecentWithFullDetails env st site).2.persists = st.persists + 1 ∧
      (scanOrReturnRecentWithFullDetails env st site).2.scans = st.scans + 1 + 1) ∧
    (scanOrReturnRecentWithFullDetails env st site).1.fullDetails.scan =
      (env.scanOf site).scanBody ∧
    (scanOrReturnRecentWithFullDetails env st site).1.fullDetails.tests =
      stripScoreDescriptions (env.scanOf site).tests := by
  refine ⟨?_, ?_, ?_, ?_⟩
  · intro row h
    rw [scanOrReturnRecent_hit env st site row h]
    exact ⟨rfl, rfl, rfl⟩
  · intro h
    rw [scanOrReturnRecent_miss env st site h]
    exact ⟨rfl, rfl, rfl, rfl⟩
  · cases h : selectScanLatestScanBySite st.db st.now site env.cooldown with
    | some row => rw [scanOrReturnRecent_hit env st site row h]
    | none => rw [scanOrReturnRecent_miss env st site h]
  · cases h : selectScanLatestScanBySite st.db st.now site env.cooldown with
    | some row => rw [scanOrReturnRecent_hit env st site row h]
    | none => rw [scanOrReturnRecent_miss env st site h]

/-- C2 witness: a cache-hit instance and a cache-miss instance at the sample
environment. -/
theorem scanFullDetails_summary_and_fullDetails_witness :
    (responseSummaryRow (scanOrReturnRecentWithFullDetails sampleEnv stCached "example.com").1 =
      cachedRow) ∧
    (responseSummaryRow (scanOrReturnRecentWithFullDetails sampleEnv st0 "example.com").1 =
      { sampleEnv.rowOf "example.com" st0.now with start_time := st0.now }) ∧
    ((scanOrReturnRecentWithFullDetails sampleEnv st0 "example.com").1.fullDetails.tests =
      stripScoreDescriptions (sampleEnv.scanOf "example.com").tests) :=
  ⟨((scanFullDetails_summary_and_fullDetails sampleEnv stCached "example.com").1 cachedRow
      (by decide)).1,
   ((scanFullDetails_summary_and_fullDetails sampleEnv st0 "example.com").2.1 (by decide)).1,
   (scanFullDetails_summary_and_fullDetails sampleEnv st0 "example.com").2.2.2⟩

/-- C10: when a young cached row exists, the endpoint persists nothing - the
database and the persist counter are unchanged - while the summary comes from
the cached row and fullDetails from the one fresh in-memory scan, whose result
is not written anywhere. -/
theorem cache_hit_persists_nothing (env : Env) (st : St) (site : String) (row : ScanRow)
    (h : selectScanLatestScanBySite st.db st.now site env.cooldown = some row) :
    ((scanOrReturnRecentWithFullDetails env st site).2.db = st.db) ∧
    ((scanOrReturnRecentWithFullDetails env st site).2.persists = st.persists) ∧
    (responseSummaryRow (scanOrReturnRecentWithFullDetails env st site).1 = row) ∧
    ((scanOrReturnRecentWithFullDetails env st site).1.fullDetails.scan =
      (env.scanOf site).scanBody) ∧
    ((scanOrReturnRecentWithFullDetails env st site).1.fullDetails.tests =
      stripScoreDescriptions (env.scanOf site).tests) ∧
    ((scanOrReturnRecentWithFullDetails env st site).2.scans = st.scans + 1) := by
  rw [scanOrReturnRecent_hit env st site row h]
  exact ⟨rfl, rfl, rfl, rfl, rfl, rfl⟩

/-- C10 witness at the cached sample state. -/
theorem cache_hit_persists_nothing_witness :
    ((scanOrReturnRecentWithFullDetails sampleEnv stCached "example.com").2.db =
      stCached.db) ∧
    (responseSummaryRow (scanOrReturnRecentWithFullDetails sampleEnv stCached
      "example.com").1 = cachedRow) ∧
    ((scanOrReturnRecentWithFullDetails sampleEnv stCached "example.com").1.fullDetails.tests =
      stripScoreDescriptions (sampleEnv.scanOf "example.com").tests) :=
  ⟨(cache_hit_persists_nothing sampleEnv stCached "example.com" cachedRow (by decide)).1,
   (cache_hit_persists_nothing sampleEnv stCached "example.com" cachedRow (by decide)).2.2.1,
   (cache_hit_persists_nothing sampleEnv stCached "example.com" cachedRow (by decide)).2.2.2.2.1⟩

theorem lookup_filter_key_none (l : List (String × String)) (k : String) :
    (l.filter (fun g => g.1 != k)).lookup k = none := by
  induction l with
  | nil => rfl
  | cons p t ih =>
    obtain ⟨a, v⟩ := p
    by_cases hp : a = k
    · rw [List.filter_cons]
      rw [show (((a, v) : String × String).1 != k) = false from by simp [hp]]
      simpa using ih
    · rw [List.filter_cons]
      rw [show (((a, v) : String × String).1 != k) = true from by simp [hp]]
      have hk : (k == a) = false := by simp [Ne.symm hp]
      simp only [if_pos rfl, List.lookup, hk]
      exact ih

theorem lookup_filter_key_other (l : List (String × String)) (k f : String) (hf : f ≠ k) :
    (l.filter (fun g => g.1 != k)).lookup f = l.lookup f := by
  induction l with
  | nil => rfl
  | cons p t ih =>
    obtain ⟨a, v⟩ := p
    by_cases hp : a = k
    · rw [List.filter_cons]
      rw [show (((a, v) : String × String).1 != k) = false from by simp [hp]]
      have hfa : (f == a) = false := by simp [hp, hf]
      simp only [List.lookup, hfa]
      simpa using ih
    · rw [List.filter_cons]
      rw [show (((a, v) : String × String).1 != k) = true from by simp [hp]]
      by_cases hfa : f = a
      · simp only [if_pos rfl, List.lookup, show (f == a) = true from by simp [hfa]]
      · simp only [if_pos rfl, List.lookup, show (f == a) = false from by simp [hfa]]
        exact ih

/-- C6: for every test entry of either endpoint response the scoreDescription
field is removed before emission and every other field keeps exactly the value
it has in the in-memory scan result. -/
theorem scoreDescription_stripped_only (env : Env) (st : St) (site : String)
    (name : String) (fields : List (String × String))
    (h : (name, fields) ∈ (env.scanOf site).tests) :
    ((name, fields.filter (fun g => g.1 != "scoreDescription")) ∈
      (scanOrReturnRecentWithFullDetails env st site).1.fullDetails.tests) ∧
    ((name, fields.filter (fun g => g.1 != "scoreDescription")) ∈
      (scanWithFullDetails env st site).1.fullDetails.tests) ∧
    ((fields.filter (fun g => g.1 != "scoreDescription")).lookup "scoreDescription" = none) ∧
    (∀ f, f ≠ "scoreDescription" →
      (fields.filter (fun g => g.1 != "scoreDescription")).lookup f = fields.lookup f) := by
  have hm : (name, fields.filter (fun g => g.1 != "scoreDescription")) ∈
      stripScoreDescriptions (env.scanOf site).tests := by
    unfold stripScoreDescriptions
    exact List.mem_map_of_mem (fun kt => (kt.1, kt.2.filter (fun g => g.1 != "scoreDescription"))) h
  have htests : (scanOrReturnRecentWithFullDetails env st site).1.fullDetails.tests =
      stripScoreDescriptions (env.scanOf site).tests := by
    cases hsel : selectScanLatestScanBySite st.db st.now site env.cooldown with
    | some row => rw [scanOrReturnRecent_hit env st site row hsel]
    | none => rw [scanOrReturnRecent_miss env st site hsel]
  refine ⟨?_, ?_, lookup_filter_key_none fields "scoreDescription",
    fun f hf => lookup_filter_key_other fields "scoreDescription" f hf⟩
  · rw [htests]
    exact hm
  · rw [scanWithFullDetails_eq, htests]
    exact hm

/-- C6 witness: the sample content-security-policy test entry. -/
theorem scoreDescription_stripped_only_witness :
    (("content-security-policy", sampleCspFields.filter (fun g => g.1 != "scoreDescription")) ∈
      (scanOrReturnRecentWithFullDetails sampleEnv st0 "example.com").1.fullDetails.tests) ∧
    ((sampleCspFields.filter (fun g => g.1 != "scoreDescription")).lookup "scoreDescription" =
      none) ∧
    ((sampleCspFields.filter (fun g => g.1 != "scoreDescription")).lookup "result" =
      sampleCspFields.lookup "result") :=
  ⟨(scoreDescription_stripped_only sampleEnv st0 "example.com" "content-security-policy"
      sampleCspFields (by decide)).1,
   (scoreDescription_stripped_only sampleEnv st0 "example.com" "content-security-policy"
      sampleCspFields (by decide)).2.2.1,
   (scoreDescription_stripped_only sampleEnv st0 "example.com" "content-security-policy"
      sampleCspFields (by decide)).2.2.2 "result" (by decide)⟩

/-- C7: the details_url of both endpoints is the configured base url followed
by the analyze query for the encoded site key, or the MDN Observatory analyze
url for the site key when no base url is configured. -/
theorem details_url_from_baseUrl (env : Env) (st : St) (site : String) :
    ((scanOrReturnRecentWithFullDetails env st site).1.details_url =
      match env.baseUrl with
      | some b => b ++ "/analyze?host=" ++ encodeURIComponent site
      | none => "https://developer.mozilla.org/en-US/observatory/analyze?host=" ++
          encodeURIComponent site) ∧
    ((scanWithFullDetails env st site).1.details_url =
      match env.baseUrl with
      | some b => b ++ "/analyze?host=" ++ encodeURIComponent site
      | none => "https://developer.mozilla.org/en-US/observatory/analyze?host=" ++
          encodeURIComponent site) :=
  ⟨rfl, rfl⟩

theorem runBatchAux_keys (env : Env) (us : List String) :
    ∀ st : St, (runBatchAux env us st).1.map Prod.fst = us := by
  induction us with
  | nil => intro st; rfl
  | cons u us ih =>
    intro st
    unfold runBatchAux
    simp only [List.map_cons]
    rw [ih]

theorem scanWithFullDetails_singles (env : Env) (st : St) (site : String) :
    (scanWithFullDetails env st site).2.singles = st.singles := by
  cases hsel : selectScanLatestScanBySite st.db st.now site env.cooldown with
  | some row => rw [scanWithFullDetails_eq, scanOrReturnRecent_hit env st site row hsel]
  | none => rw [scanWithFullDetails_eq, scanOrReturnRecent_miss env st site hsel]

theorem scanSingleUrl_singles (env : Env) (st : St) (u : String) :
    (scanSingleUrl env st u).2.singles = st.singles + 1 := by
  unfold scanSingleUrl
  cases hc : env.siteCheck (jsNormalize u) with
  | error e => rfl
  | ok site =>
    simp only []
    rw [scanWithFullDetails_singles]

theorem runBatchAux_singles (env : Env) (us : List String) :
    ∀ st : St, (runBatchAux env us st).2.singles = st.singles + us.length := by
  induction us with
  | nil => intro st; rfl
  | cons u us ih =>
    intro st
    unfold runBatchAux
    simp only [List.length_cons]
    rw [ih, scanSingleUrl_singles]
    omega

theorem dedupAux_map_normalize (urls : List String) :
    ∀ seen : List String, (dedupAux urls seen).map jsNormalize = distinctForms urls seen := by
  induction urls with
  | nil => intro seen; rfl
  | cons u us ih =>
    intro seen
    unfold dedupAux distinctForms
    by_cases hu : jsNormalize u ∈ seen
    · rw [if_pos hu, if_pos hu, ih]
    · rw [if_neg hu, if_neg hu]
      simp only [List.map_cons]
      rw [ih]

theorem distinctForms_fresh (urls : List String) :
    ∀ seen : List String, ∀ x ∈ distinctForms urls seen, x ∉ seen := by
  induction urls with
  | nil => intro seen x hx; simp [distinctForms] at hx
  | cons u us ih =>
    intro seen x hx
    unfold distinctForms at hx
    by_cases hu : jsNormalize u ∈ seen
    · rw [if_pos hu] at hx
      exact ih seen x hx
    · rw [if_neg hu] at hx
      rcases List.mem_cons.mp hx with rfl | hx2
      · exact hu
      · intro hxs
        exact ih (jsNormalize u :: seen) x hx2 (List.mem_cons_of_mem _ hxs)

theorem distinctForms_nodup (urls : List String) :
    ∀ seen : List String, (distinctForms urls seen).Nodup := by
  induction urls with
  | nil => intro seen; simp [distinctForms]
  | cons u us ih =>
    intro seen
    unfold distinctForms
    by_cases hu : jsNormalize u ∈ seen
    · rw [if_pos hu]
      exact ih seen
    · rw [if_neg hu]
      refine List.nodup_cons.mpr ⟨?_, ih (jsNormalize u :: seen)⟩
      intro hmem
      exact distinctForms_fresh us (jsNormalize u :: seen) _ hmem (List.mem_cons_self _ _)

theorem mem_distinctForms (urls : List String) (x : String) :
    ∀ seen : List String, x ∈ distinctForms urls seen ↔ x ∈ urls.map jsNormalize ∧ x ∉ seen := by
  induction urls with
  | nil => intro seen; simp [distinctForms]
  | cons u us ih =>
    intro seen
    unfold distinctForms
    simp only [List.map_cons, List.mem_cons]
    by_cases hu : jsNormalize u ∈ seen
    · rw [if_pos hu, ih seen]
      constructor
      · rintro ⟨h1, h2⟩
        exact ⟨Or.inr h1, h2⟩
      · rintro ⟨h1 | h1, h2⟩
        · exact absurd hu (h1 ▸ h2)
        · exact ⟨h1, h2⟩
    · rw [if_neg hu]
      rw [List.mem_cons, ih (jsNormalize u :: seen)]
      constructor
      · rintro (rfl | ⟨h1, h2⟩)
        · exact ⟨Or.inl rfl, hu⟩
        · exact ⟨Or.inr h1, fun hs => h2 (List.mem_cons_of_mem _ hs)⟩
      · rintro ⟨h1 | h1, h2⟩
        · exact Or.inl h1
        · by_cases hx : x = jsNormalize u
          · exact Or.inl hx
          · exact Or.inr ⟨h1, by
              intro hmem
              rcases List.mem_cons.mp hmem with h3 | h3
              · exact hx h3
              · exact h2 h3⟩

/-- C3: a batch issues exactly one scanSingleUrl invocation per distinct
canonical (trimmed, lower-cased) form of its urls, and the response map is
keyed by exactly the distinct normalized forms, each occurring once. -/
theorem batch_dedup_one_scan_per_form (env : Env) (st : St) (urls : List String) :
    ((scanBatchFullDetails env st urls).1.map Prod.fst = distinctForms urls []) ∧
    ((scanBatchFullDetails env st urls).1.map Prod.fst).Nodup ∧
    ((scanBatchFullDetails env st urls).2.singles =
      st.singles + (distinctForms urls []).length) ∧
    (∀ k, k ∈ (scanBatchFullDetails env st urls).1.map Prod.fst ↔
      k ∈ urls.map jsNormalize) := by
  have hkeys : (scanBatchFullDetails env st urls).1.map Prod.fst = distinctForms urls [] := by
    unfold scanBatchFullDetails
    rw [runBatchAux_keys, dedupAux_map_normalize]
  refine ⟨hkeys, ?_, ?_, ?_⟩
  · rw [hkeys]
    exact distinctForms_nodup urls []
  · unfold scanBatchFullDetails
    rw [runBatchAux_singles]
    rw [List.length_map, show (dedupAux urls []).length =
      ((dedupAux urls []).map jsNormalize).length from (List.length_map _ _).symm]
    rw [dedupAux_map_normalize]
  · intro k
    rw [hkeys, mem_distinctForms]
    simp

/-- C3 witness: three urls differing only in case and whitespace plus one other
host produce two scans and two keys. -/
theorem batch_dedup_one_scan_per_form_witness :
    ((scanBatchFullDetails sampleEnv st0
        ["Example.COM", " example.com ", "mdn.dev", "EXAMPLE.com"]).1.map Prod.fst =
      ["example.com", "mdn.dev"]) ∧
    ((scanBatchFullDetails sampleEnv st0
        ["Example.COM", " example.com ", "mdn.dev", "EXAMPLE.com"]).2.singles =
      st0.singles + 2) := by
  have h := batch_dedup_one_scan_per_form sampleEnv st0
    ["Example.COM", " example.com ", "mdn.dev", "EXAMPLE.com"]
  refine ⟨?_, ?_⟩
  · rw [h.1]
    decide
  · rw [h.2.2.1]
    decide

theorem runBatchAux_entry_shape (env : Env) (us : List String) (u : String) (e : BatchEntry) :
    ∀ st : St, (u, e) ∈ (runBatchAux env us st).1 →
      ∃ st' : St, e = (scanSingleUrl env st' u).1 := by
  induction us with
  | nil => intro st h; simp [runBatchAux] at h
  | cons v vs ih =>
    intro st h
    unfold runBatchAux at h
    rcases List.mem_cons.mp h with h1 | h1
    · obtain ⟨rfl, rfl⟩ := Prod.mk.injEq _ _ _ _ ▸ h1
      exact ⟨st, rfl⟩
    · exact ih _ h1

theorem runBatchAux_key_covered (env : Env) (us : List String) (u : String) (h : u ∈ us) :
    ∀ st : St, ∃ e, (u, e) ∈ (runBatchAux env us st).1 := by
  induction us with
  | nil => simp at h
  | cons v vs ih =>
    intro st
    rcases List.mem_cons.mp h with rfl | h1
    · exact ⟨(scanSingleUrl env st u).1, List.mem_cons_self _ _⟩
    · obtain ⟨e, he⟩ := ih h1 (scanSingleUrl env st v).2
      exact ⟨e, List.mem_cons_of_mem _ he⟩

theorem scanSingleUrl_fail_shape (env : Env) (st : St) (u : String) (err : JsError)
    (hn : jsNormalize u = u) (hc : env.siteCheck u = .error err) :
    (scanSingleUrl env st u).1 =
      .fail { error := jsOr err.name "error-unknown"
              errorType := jsOr err.ctorName "Error"
              message := jsOr err.message "Unknown error occurred" } := by
  unfold scanSingleUrl
  rw [hn, hc]

/-- C4: every distinct normalized entry of a batch receives a result under its
key no matter how other entries fare, and an entry whose site check throws is
reported under its key as the failure object - success flag false, an error
field and a message field - built from the thrown error. -/
theorem batch_failure_isolated (env : Env) (st : St) (urls : List String) (u : String)
    (hu : u ∈ urls.map jsNormalize) :
    (∃ e, (u, e) ∈ (scanBatchFullDetails env st urls).1) ∧
    (∀ err, env.siteCheck u = .error err →
      ∀ e, (u, e) ∈ (scanBatchFullDetails env st urls).1 →
        e = .fail { error := jsOr err.name "error-unknown"
                    errorType := jsOr err.ctorName "Error"
                    message := jsOr err.message "Unknown error occurred" } ∧
        e.successFlag = false) := by
  have hnorm : jsNormalize u = u := by
    rcases List.mem_map.mp hu with ⟨v, _, rfl⟩
    exact jsNormalize_idem v
  have humem : u ∈ (dedupAux urls []).map jsNormalize := by
    rw [dedupAux_map_normalize]
    rw [mem_distinctForms]
    exact ⟨hu, by simp⟩
  constructor
  · exact runBatchAux_key_covered env _ u humem st
  · intro err herr e he
    obtain ⟨st', rfl⟩ := runBatchAux_entry_shape env _ u e st he
    rw [scanSingleUrl_fail_shape env st' u err hnorm herr]
    exact ⟨rfl, rfl⟩

/-- C4 witness: a batch with one failing and one succeeding entry; the failing
entry is present with the failure object while the other entry is also
present. -/
theorem batch_failure_isolated_witness :
    (∃ e, ("bad.example", e) ∈
      (scanBatchFullDetails failEnv st0 [" bad.EXAMPLE ", "good.example"]).1) ∧
    (∃ e, ("good.example", e) ∈
      (scanBatchFullDetails failEnv st0 [" bad.EXAMPLE ", "good.example"]).1) ∧
    ((BatchEntry.fail { error := "invalid-hostname-lookup"
                        errorType := "HostnameError"
                        message := "bad.example cannot be resolved" }).successFlag = false) :=
  ⟨(batch_failure_isolated failEnv st0 [" bad.EXAMPLE ", "good.example"] "bad.example"
      (by decide)).1,
   (batch_failure_isolated failEnv st0 [" bad.EXAMPLE ", "good.example"] "good.example"
      (by decide)).1,
   ((batch_failure_isolated failEnv st0 [" bad.EXAMPLE ", "good.example"] "bad.example"
      (by decide)).2
      { name := "invalid-hostname-lookup"
        ctorName := "HostnameError"
        message := "bad.example cannot be resolved" } (by rfl)
      (BatchEntry.fail { error := "invalid-hostname-lookup"
                         errorType := "HostnameError"
                         message := "bad.example cannot be resolved" }) (by decide)).2⟩

/-- C5: a batch body lacking the urls array, or whose urls array is empty or
longer than MAX_BATCH_SIZE, is answered with HTTP 422 and an error,message
body, and the state - database and all scan counters - is untouched: no scan
is issued. -/
theorem batch_validation_rejects (env : Env) (st : St) (b : BatchBody)
    (h : b = BatchBody.missingUrls ∨
      ∃ urls, b = BatchBody.withUrls urls ∧
        (urls.length = 0 ∨ MAX_BATCH_SIZE < urls.length)) :
    (∃ eb : ErrorBody, (scanBatchEndpoint env st b).1 = .err 422 eb) ∧
    (scanBatchEndpoint env st b).2 = st := by
  rcases h with rfl | ⟨urls, rfl, hlen⟩
  · exact ⟨⟨_, rfl⟩, rfl⟩
  · have hcond : ¬(1 ≤ urls.length ∧ urls.length ≤ MAX_BATCH_SIZE) := by
      unfold MAX_BATCH_SIZE at hlen ⊢
      omega
    unfold scanBatchEndpoint
    dsimp only
    rw [if_neg hcond]
    exact ⟨⟨_, rfl⟩, rfl⟩

/-- C5 witness: the empty urls array and an eleven entry array are both
rejected with 422 and unchanged state. -/
theorem batch_validation_rejects_witness :
    ((∃ eb : ErrorBody, (scanBatchEndpoint sampleEnv st0 (BatchBody.withUrls [])).1 =
      .err 422 eb) ∧ (scanBatchEndpoint sampleEnv st0 (BatchBody.withUrls [])).2 = st0) ∧
    ((∃ eb : ErrorBody, (scanBatchEndpoint sampleEnv st0
      (BatchBody.withUrls ["a", "b", "c", "d", "e", "f", "g", "h", "i", "j", "k"])).1 =
      .err 422 eb) ∧ (scanBatchEndpoint sampleEnv st0
      (BatchBody.withUrls ["a", "b", "c", "d", "e", "f", "g", "h", "i", "j", "k"])).2 = st0) :=
  ⟨batch_validation_rejects sampleEnv st0 (BatchBody.withUrls [])
      (Or.inr ⟨[], rfl, Or.inl rfl⟩),
   batch_validation_rejects sampleEnv st0
      (BatchBody.withUrls ["a", "b", "c", "d", "e", "f", "g", "h", "i", "j", "k"])
      (Or.inr ⟨["a", "b", "c", "d", "e", "f", "g", "h", "i", "j", "k"], rfl,
        Or.inr (by decide)⟩)⟩

theorem runWithConcurrencyTrace_bound (limit : Nat) (items : List String) :
    ∀ n ks, n < limit → ∀ m ∈ runWithConcurrencyTrace limit items n ks, m ≤ limit := by
  induction items with
  | nil =>
    intro n ks _ m hm
    simp [runWithConcurrencyTrace] at hm
  | cons i items ih =>
    intro n ks h m hm
    unfold runWithConcurrencyTrace at hm
    by_cases hc : limit ≤ n + 1
    · rw [if_pos hc] at hm
      rcases List.mem_cons.mp hm with rfl | hm2
      · omega
      · refine ih _ ks.tail ?_ m hm2
        have hmin1 : 1 ≤ min (n + 1) (max 1 (ks.headD 1)) :=
          le_min (by omega) (le_max_left 1 _)
        have hmin2 : min (n + 1) (max 1 (ks.headD 1)) ≤ n + 1 := min_le_left _ _
        omega
    · rw [if_neg hc] at hm
      rcases List.mem_cons.mp hm with rfl | hm2
      · omega
      · exact ih _ ks (by omega) m hm2

/-- C8: in the in-flight trace of the batch runner, no moment has more than
DEFAULT_CONCURRENCY tasks executing, whatever the items and however the
scheduler settles tasks at each Promise.race wait. -/
theorem batch_inflight_at_most_default_concurrency (items : List String) (ks : List Nat)
    (m : Nat) (hm : m ∈ runWithConcurrencyTrace DEFAULT_CONCURRENCY items 0 ks) :
    m ≤ DEFAULT_CONCURRENCY :=
  runWithConcurrencyTrace_bound DEFAULT_CONCURRENCY items 0 ks (by decide) m hm

/-- C8 witness: a ten item batch (the maximum size) with a scheduler that
settles one task per wait peaks at five in-flight tasks, within the bound. -/
theorem batch_inflight_at_most_default_concurrency_witness :
    (5 ∈ runWithConcurrencyTrace DEFAULT_CONCURRENCY
      ["a", "b", "c", "d", "e", "f", "g", "h", "i", "j"] 0 [1, 1, 1, 1, 1, 1]) ∧
    5 ≤ DEFAULT_CONCURRENCY :=
  ⟨by decide,
   batch_inflight_at_most_default_concurrency
     ["a", "b", "c", "d", "e", "f", "g", "h", "i", "j"] [1, 1, 1, 1, 1, 1] 5 (by decide)⟩

/-- C9: canonicalization is idempotent - the endpoint-level trim-then-lowercase
normalization is a fixed point on its own output, and the full canonicalizer
maps every canonical form it accepts back to itself. -/
theorem canonicalization_idempotent :
    (∀ s : String, jsNormalize (jsNormalize s) = jsNormalize s) ∧
    (∀ s u : String, canonicalize s = some u → canonicalize u = some u) :=
  ⟨jsNormalize_idem, fun _ _ h => canonicalize_idem h⟩

/-- C9 witness: a mixed-case padded host and a canonicalized url with scheme,
port and path. -/
theorem canonicalization_idempotent_witness :
    (jsNormalize (jsNormalize "  MDN.Dev ") = jsNormalize "  MDN.Dev ") ∧
    canonicalize "example.com:8080/Path" = some "example.com:8080/Path" :=
  ⟨canonicalization_idempotent.1 "  MDN.Dev ",
   canonicalization_idempotent.2 "http://Example.COM:8080/Path" "example.com:8080/Path"
     (by decide)⟩
